import Mathlib

/-!
Shallow embedding of the llm-chat-cli program (src/main.go).

The program is a single-file Go CLI: it loads a conversation from a JSON
input file, optionally resolves file-backed system prompts, then runs an
interactive loop that alternates reading a user line and calling a remote
chat-completion endpoint, appending turns to an in-memory message list.
`/quit` saves an indented-JSON transcript and exits, `/quit!` exits without
saving.  The definitions below are translated from the Go source; process
aborts (log.Fatalf) are modelled as `Option.none` results or a `FatalExit`
mode, and the file system and the remote endpoint are modelled as explicit
inputs (a path-to-contents map, and an outcome event per call).
-/

/-! ## Data model (main.go lines 29-66) -/

/-- Go `type MsgRole string` (main.go line 29). -/
abbrev MsgRole := String

/-- Go constant `USER MsgRole = "user"` (main.go line 32). -/
def USER : MsgRole := "user"

/-- Go constant `ASSISTANT MsgRole = "assistant"` (main.go line 33). -/
def ASSISTANT : MsgRole := "assistant"

/-- Go constant `SYSTEM MsgRole = "system"` (main.go line 34). -/
def SYSTEM : MsgRole := "system"

/-- Go struct `Message` (main.go lines 43-46): one conversation turn. -/
structure Message where
  role : MsgRole
  content : String
deriving DecidableEq, Repr

/-- Go struct `MessageIn` (main.go lines 37-41): one raw input record.
In Go an absent JSON field leaves the zero value, so `file = ""` encodes
an absent file reference. -/
structure MessageIn where
  role : MsgRole
  content : String
  file : String
deriving DecidableEq, Repr

/-- Go struct `ResponseChoice` (main.go lines 54-56). -/
structure ResponseChoice where
  message : Message
deriving DecidableEq, Repr

/-- Go struct `RequestPayload` (main.go lines 48-52). -/
structure RequestPayload where
  model : String
  messages : List Message
  temperature : Float

/-- Building the request payload: `payload.Messages = messages` before each
call (main.go lines 273-280); the messages list is sent unchanged. -/
def buildPayload (model : String) (temperature : Float) (msgs : List Message) :
    RequestPayload :=
  { model := model, messages := msgs, temperature := temperature }

/-! ## Conversation loader (main.go lines 227-247)

The loader walks the decoded input records, copying role and inline
content; for a system record with a non-empty file reference it replaces
the content with the contents of `promptsDir/file`, aborting the process
(`log.Fatalf`, modelled as `none`) when the file cannot be opened or read.
The file system is modelled as a partial map from paths to contents. -/

def loadConversation (fs : String → Option String) (promptsDir : String) :
    List MessageIn → Option (List Message)
  | [] => some []
  | msg :: rest =>
    if msg.role = SYSTEM ∧ msg.file ≠ "" then
      match fs (promptsDir ++ "/" ++ msg.file) with
      | none => none
      | some data =>
        (loadConversation fs promptsDir rest).map
          (fun ms => Message.mk msg.role data :: ms)
    else
      (loadConversation fs promptsDir rest).map
        (fun ms => Message.mk msg.role msg.content :: ms)

/-! ## Interactive input (main.go lines 100-111)

`readUserInput` reads one line including the trailing `'\n'`, then runs
`strings.TrimSuffix(s, "\n")` followed by `strings.TrimSuffix(s, "\r\n")`,
in that order. -/

/-- Go `strings.HasSuffix(s, suf)`:
`len(s) >= len(suf) && s[len(s)-len(suf):] == suf`. -/
def hasSuffix (s suf : String) : Bool :=
  s.data.length ≥ suf.data.length &&
    s.data.drop (s.data.length - suf.data.length) == suf.data

/-- Go `strings.TrimSuffix`: drop `suf` from the end of `s` when present
(`s[:len(s)-len(suf)]`). -/
def stringTrimSuffix (s suf : String) : String :=
  if hasSuffix s suf then
    String.mk (s.data.take (s.data.length - suf.data.length))
  else s

/-- The post-read normalisation of `readUserInput` (main.go lines 107-108):
trim a trailing `"\n"`, then trim a trailing `"\r\n"` from the result. -/
def processInput (raw : String) : String :=
  stringTrimSuffix (stringTrimSuffix raw "\n") "\r\n"

/-! ## Startup banner counters (main.go lines 113-127) -/

/-- The three per-role counters of `displayInitScreen`. -/
structure RoleCounts where
  systemCount : Nat
  userCount : Nat
  assistantCount : Nat
deriving DecidableEq, Repr

/-- The counting switch of `displayInitScreen` (main.go lines 118-127):
a message whose role matches none of the three constants is not counted. -/
def countRoles (msgs : List Message) : RoleCounts :=
  msgs.foldl
    (fun acc m =>
      if m.role = USER then { acc with userCount := acc.userCount + 1 }
      else if m.role = ASSISTANT then
        { acc with assistantCount := acc.assistantCount + 1 }
      else if m.role = SYSTEM then
        { acc with systemCount := acc.systemCount + 1 }
      else acc)
    ⟨0, 0, 0⟩

/-! ## Session state machine (main.go lines 249-357)

The interactive loop is modelled as a small-step machine.  External
effects are events: the outcome of one remote call, or the outcome of one
interactive read.  The Go variable `responseBody` is declared once outside
the loop (main.go line 277) and reused by every `json.Unmarshal`; since
Go's decoder leaves a slice field untouched when the JSON key is absent,
the machine state carries the previous `responseBody.Choices` value. -/

/-- Outcome of one remote call (main.go lines 280-321).  A `decoded`
outcome is an HTTP 200 whose body unmarshals without error; `choicesField`
is `none` when the body has no `choices` key (Go then keeps the previous
slice value) and `some cs` when the key is present with list `cs`. -/
inductive RemoteOutcome where
  | transportError
  | httpError (status : Nat) (body : String)
  | unreadableBody
  | undecodable (body : String)
  | decoded (choicesField : Option (List ResponseChoice))
deriving DecidableEq, Repr

/-- Outcome of one interactive read: a raw line (still carrying its line
terminator) or a read failure. -/
inductive InputEvent where
  | line (raw : String)
  | readFailure
deriving DecidableEq, Repr

/-- Control position of the session.  `Terminated save` is reached by a
quit command (`save = true` for `/quit`); `FatalExit` models `log.Fatalf`
on a read failure at the pre-loop prompt (main.go line 257). -/
inductive Mode where
  | AwaitingUserTurn
  | AwaitingRemoteReply
  | Terminated (save : Bool)
  | FatalExit
deriving DecidableEq, Repr

structure SessionState where
  mode : Mode
  messages : List Message
  /-- the persistent `responseBody.Choices` (main.go line 277) -/
  respChoices : List ResponseChoice
  /-- whether the next interactive read is the pre-loop one, whose read
  failure is fatal (main.go lines 255-258) rather than retried -/
  firstPrompt : Bool
deriving DecidableEq, Repr

/-- The initial-state decision (main.go lines 253-254):
`msgsCount == 0 || messages[msgsCount-1].Role != USER` means the human is
prompted first; otherwise the loop is entered directly with a remote call. -/
def startsWithPrompt (msgs : List Message) : Bool :=
  match msgs.getLast? with
  | none => true
  | some m => m.role ≠ USER

def initState (msgs : List Message) : SessionState :=
  if startsWithPrompt msgs then
    { mode := Mode.AwaitingUserTurn, messages := msgs, respChoices := [],
      firstPrompt := true }
  else
    { mode := Mode.AwaitingRemoteReply, messages := msgs, respChoices := [],
      firstPrompt := false }

/-- One interactive read (main.go lines 255-269 for the pre-loop prompt,
340-355 for the in-loop prompt; the quit handling of the two sites is
identical).  A read failure is fatal at the pre-loop prompt and a
`continue` (back to the remote call) inside the loop. -/
def stepInput (st : SessionState) (e : InputEvent) : SessionState :=
  match e with
  | InputEvent.readFailure =>
    if st.firstPrompt then { st with mode := Mode.FatalExit }
    else { st with mode := Mode.AwaitingRemoteReply, firstPrompt := false }
  | InputEvent.line raw =>
    let s := processInput raw
    if s = "/quit!" then
      { st with mode := Mode.Terminated false, firstPrompt := false }
    else if s = "/quit" then
      { st with mode := Mode.Terminated true, firstPrompt := false }
    else
      { st with mode := Mode.AwaitingRemoteReply,
                messages := st.messages ++ [Message.mk USER s],
                firstPrompt := false }

/-- One remote call (main.go lines 280-337).  Every failure is a
`continue`: the conversation and the stale `responseBody` are untouched
and the loop re-enters the remote call.  A decoded body merges into the
reused `responseBody`: an absent `choices` key keeps the previous slice.
With at least one choice, `Choices[0].Message` is appended. -/
def stepRemote (st : SessionState) (o : RemoteOutcome) : SessionState :=
  match o with
  | RemoteOutcome.transportError => { st with mode := Mode.AwaitingRemoteReply }
  | RemoteOutcome.httpError _ _ => { st with mode := Mode.AwaitingRemoteReply }
  | RemoteOutcome.unreadableBody => { st with mode := Mode.AwaitingRemoteReply }
  | RemoteOutcome.undecodable _ => { st with mode := Mode.AwaitingRemoteReply }
  | RemoteOutcome.decoded choicesField =>
    let newChoices := choicesField.getD st.respChoices
    match newChoices with
    | c :: _ =>
      { st with mode := Mode.AwaitingUserTurn,
                messages := st.messages ++ [c.message],
                respChoices := newChoices, firstPrompt := false }
    | [] =>
      { st with mode := Mode.AwaitingUserTurn, respChoices := newChoices,
                firstPrompt := false }

inductive Event where
  | input (e : InputEvent)
  | remote (o : RemoteOutcome)
deriving DecidableEq, Repr

/-- One step of the session: input events are consumed at a prompt, remote
outcomes while a call is in flight; the terminal modes are absorbing. -/
def step (st : SessionState) (ev : Event) : SessionState :=
  match st.mode, ev with
  | Mode.AwaitingUserTurn, Event.input e => stepInput st e
  | Mode.AwaitingRemoteReply, Event.remote o => stepRemote st o
  | _, _ => st

/-! ## Startup input decoding (main.go lines 221-225)

`json.Unmarshal(inputData, &messagesIn)` with `messagesIn []MessageIn`.
JSON text that fails the syntax scan is modelled as `none`; syntactically
valid text is modelled by its JSON value.  Go's decoder semantics for the
target type `[]MessageIn`:

* a JSON `null` sets the slice to nil without error;
* a JSON array decodes element-wise;
* an element that is `null` leaves the zero `MessageIn`; an element that
  is an object decodes field-wise, matching keys ASCII-case-insensitively
  against `role`/`content`/`file`, ignoring unknown keys; a field value
  must be a string (or `null`, which leaves the field untouched);
* any other shape is an error, and any error is `log.Fatalf` at startup. -/

inductive JsonVal where
  | null
  | bool (b : Bool)
  | num (raw : String)
  | str (s : String)
  | arr (elems : List JsonVal)
  | obj (fields : List (String × JsonVal))

/-- ASCII-lowercase a string, the fold used by Go's JSON key matching. -/
def asciiLower (s : String) : String :=
  String.mk (s.data.map fun c =>
    if 'A' ≤ c ∧ c ≤ 'Z' then Char.ofNat (c.toNat + 32) else c)

/-- Decode one JSON value into a string-typed struct field: a string
replaces the field, `null` is a no-op, anything else is a decode error. -/
def strOrNullField (current : String) (v : JsonVal) : Option String :=
  match v with
  | JsonVal.null => some current
  | JsonVal.str s => some s
  | _ => none

/-- Decode one object member into a `MessageIn` (field by key, unknown
keys ignored). -/
def setField (m : MessageIn) (key : String) (v : JsonVal) : Option MessageIn :=
  if asciiLower key = "role" then
    (strOrNullField m.role v).map (fun s => { m with role := s })
  else if asciiLower key = "content" then
    (strOrNullField m.content v).map (fun s => { m with content := s })
  else if asciiLower key = "file" then
    (strOrNullField m.file v).map (fun s => { m with file := s })
  else some m

/-- Decode an object's members one after the other into a `MessageIn`
(Go processes keys sequentially). -/
def unmarshalFields : MessageIn → List (String × JsonVal) → Option MessageIn
  | m, [] => some m
  | m, kv :: rest =>
    match setField m kv.1 kv.2 with
    | none => none
    | some m2 => unmarshalFields m2 rest

/-- Decode one array element into a `MessageIn`. -/
def unmarshalMessageIn (v : JsonVal) : Option MessageIn :=
  match v with
  | JsonVal.null => some ⟨"", "", ""⟩
  | JsonVal.obj fields => unmarshalFields ⟨"", "", ""⟩ fields
  | _ => none

/-- Decode the array elements one after the other. -/
def unmarshalElems : List JsonVal → Option (List MessageIn)
  | [] => some []
  | v :: rest =>
    match unmarshalMessageIn v with
    | none => none
    | some m => (unmarshalElems rest).map (fun ms => m :: ms)

/-- Decode the whole input value into `[]MessageIn`. -/
def unmarshalMessagesIn (v : JsonVal) : Option (List MessageIn) :=
  match v with
  | JsonVal.null => some []
  | JsonVal.arr es => unmarshalElems es
  | _ => none

/-- The startup decode step (main.go lines 221-225): `none` is
`log.Fatalf("Invalid JSON input: ...")`, i.e. a fatal startup error. -/
def decodeInputFile (parsed : Option JsonVal) : Option (List MessageIn) :=
  match parsed with
  | none => none
  | some v => unmarshalMessagesIn v

/-- Characterisation (stated, not taken from the source) of the element
shapes the startup decoder accepts: `null`, or an object in which every
member whose key ASCII-folds to `role`, `content` or `file` carries a
string or `null` value.  Used only to state the amended form of the
input-validation claim, and proved equivalent to the source-derived
decoder in the corresponding theorem. -/
def fieldAccepted (kv : String × JsonVal) : Bool :=
  match kv.2 with
  | JsonVal.null => true
  | JsonVal.str _ => true
  | _ => !(asciiLower kv.1 = "role" || asciiLower kv.1 = "content" ||
           asciiLower kv.1 = "file")

def acceptedRecordShape (v : JsonVal) : Bool :=
  match v with
  | JsonVal.null => true
  | JsonVal.obj fields => fields.all fieldAccepted
  | _ => false

/-! ## Transcript serialization (main.go lines 79-98)

`saveConversationLog` writes `json.MarshalIndent(messages, "", "  ")`.
The serializer below produces, as a list of characters, exactly the bytes
Go emits for a `[]Message` value (for valid-Unicode contents): a JSON
array indented by two spaces, each element an object with the `role` and
`content` keys, strings escaped the way `encoding/json` escapes them
(`"`, `\`, newline, carriage return, tab, other control characters as
`\u00xx`, the HTML-escaped `<`, `>`, `&`, and U+2028/U+2029). -/

/-- Lowercase hexadecimal digit, as emitted by Go's JSON encoder. -/
def hexDigitChar (n : Nat) : Char :=
  if n < 10 then Char.ofNat (48 + n) else Char.ofNat (87 + n)

/-- Go `encoding/json` escaping of one character (default encoder,
HTML escaping on, valid Unicode input). -/
def escCharGo (c : Char) : List Char :=
  if c = '"' then ['\\', '"']
  else if c = '\\' then ['\\', '\\']
  else if c = '\n' then ['\\', 'n']
  else if c = '\r' then ['\\', 'r']
  else if c = '\t' then ['\\', 't']
  else if c.toNat < 32 then
    ['\\', 'u', '0', '0', hexDigitChar (c.toNat / 16), hexDigitChar (c.toNat % 16)]
  else if c = '<' then ['\\', 'u', '0', '0', '3', 'c']
  else if c = '>' then ['\\', 'u', '0', '0', '3', 'e']
  else if c = '&' then ['\\', 'u', '0', '0', '2', '6']
  else if c.toNat = 8232 then ['\\', 'u', '2', '0', '2', '8']
  else if c.toNat = 8233 then ['\\', 'u', '2', '0', '2', '9']
  else [c]

/-- Go JSON escaping of a character list. -/
def escListGo (cs : List Char) : List Char :=
  (cs.map escCharGo).flatten

/-- Go JSON escaping of a string. -/
def escGo (s : String) : List Char :=
  escListGo s.data

/-- Characters of a string literal. -/
def strL (s : String) : List Char :=
  s.data

/-- One serialized element of the transcript array, exactly as
`MarshalIndent(..., "", "  ")` lays it out at depth one. -/
def serMsg (m : Message) : List Char :=
  strL "  \x7b\n    \"role\": \"" ++ escGo m.role ++
    strL "\",\n    \"content\": \"" ++ escGo m.content ++ strL "\"\n  \x7d"

/-- The comma-newline-joined element list. -/
def serItems : List Message → List Char
  | [] => []
  | [m] => serMsg m
  | m :: m2 :: rest => serMsg m ++ strL ",\n" ++ serItems (m2 :: rest)

/-- The full transcript text: `[]` for an empty conversation, otherwise
the bracketed, indented element list. -/
def serializeConversation (msgs : List Message) : List Char :=
  match msgs with
  | [] => strL "[]"
  | _ => strL "[\n" ++ serItems msgs ++ strL "\n]"

/-- The transcript contents written on termination: `/quit` (save = true)
hands the current conversation to `saveConversationLog` (main.go lines
263, 349), which serializes it as above; `/quit!` writes nothing. -/
def savedTranscript (st : SessionState) : Option (List Char) :=
  match st.mode with
  | Mode.Terminated true => some (serializeConversation st.messages)
  | _ => none

/-! ## Transcript parsing

A JSON reader for the transcript's shape — an array of objects with
string-valued members — with standard JSON whitespace handling and string
unescaping, modelling `json.Unmarshal` into `[]Message` on the fragment
of JSON the transcript format uses.  Object members are matched to the
`role`/`content` fields by key, unknown keys are ignored, later
duplicates overwrite, and an absent key leaves the zero value, as in Go.
The loop over array items and object members is fueled; the entry point
supplies fuel larger than any possible item count. -/

/-- Value of one hexadecimal digit character. -/
def hexVal (c : Char) : Option Nat :=
  if '0' ≤ c ∧ c ≤ '9' then some (c.toNat - 48)
  else if 'a' ≤ c ∧ c ≤ 'f' then some (c.toNat - 87)
  else if 'A' ≤ c ∧ c ≤ 'F' then some (c.toNat - 55)
  else none

/-- Skip JSON insignificant whitespace. -/
def skipWs : List Char → List Char
  | [] => []
  | c :: r =>
    if c = ' ' ∨ c = '\t' ∨ c = '\n' ∨ c = '\r' then skipWs r else c :: r

/-- Read a JSON string body after its opening quote: returns the decoded
characters and the input after the closing quote. -/
def parseStrBody : List Char → Option (List Char × List Char)
  | [] => none
  | c :: r =>
    if c = '"' then some ([], r)
    else if c = '\\' then
      match r with
      | [] => none
      | e :: r2 =>
        if e = '"' then (parseStrBody r2).map (fun p => ('"' :: p.1, p.2))
        else if e = '\\' then (parseStrBody r2).map (fun p => ('\\' :: p.1, p.2))
        else if e = '/' then (parseStrBody r2).map (fun p => ('/' :: p.1, p.2))
        else if e = 'n' then (parseStrBody r2).map (fun p => ('\n' :: p.1, p.2))
        else if e = 'r' then (parseStrBody r2).map (fun p => ('\r' :: p.1, p.2))
        else if e = 't' then (parseStrBody r2).map (fun p => ('\t' :: p.1, p.2))
        else if e = 'b' then (parseStrBody r2).map (fun p => ('\x08' :: p.1, p.2))
        else if e = 'f' then (parseStrBody r2).map (fun p => ('\x0c' :: p.1, p.2))
        else if e = 'u' then
          match r2 with
          | h1 :: h2 :: h3 :: h4 :: r3 =>
            match hexVal h1, hexVal h2, hexVal h3, hexVal h4 with
            | some a, some b, some x, some d =>
              (parseStrBody r3).map
                (fun p => (Char.ofNat (((a * 16 + b) * 16 + x) * 16 + d) :: p.1, p.2))
            | _, _, _, _ => none
          | _ => none
        else none
    else (parseStrBody r).map (fun p => (c :: p.1, p.2))

/-- Read the members of a JSON object after its opening brace (at least
one member): returns the key/value pairs and the input after the closing
brace. -/
def parseMembers : Nat → List Char → Option (List (List Char × List Char) × List Char)
  | 0, _ => none
  | Nat.succ fuel, s =>
    match skipWs s with
    | '"' :: r =>
      match parseStrBody r with
      | none => none
      | some (key, r2) =>
        match skipWs r2 with
        | ':' :: r3 =>
          match skipWs r3 with
          | '"' :: r4 =>
            match parseStrBody r4 with
            | none => none
            | some (val, r5) =>
              match skipWs r5 with
              | ',' :: r6 =>
                (parseMembers fuel r6).map (fun p => ((key, val) :: p.1, p.2))
              | '\x7d' :: r6 => some ([(key, val)], r6)
              | _ => none
          | _ => none
        | _ => none
    | _ => none

/-- Read one JSON object as a `Message`: fields are filled by key with
later duplicates overwriting, starting from the zero value. -/
def parseObjMsg (fuel : Nat) (s : List Char) : Option (Message × List Char) :=
  match skipWs s with
  | '\x7b' :: r =>
    match skipWs r with
    | '\x7d' :: r2 => some (⟨"", ""⟩, r2)
    | _ =>
      match parseMembers fuel r with
      | none => none
      | some (fields, rest) =>
        some (fields.foldl
          (fun m kv =>
            if kv.1 = strL "role" then { m with role := String.mk kv.2 }
            else if kv.1 = strL "content" then { m with content := String.mk kv.2 }
            else m)
          (⟨"", ""⟩ : Message), rest)
  | _ => none

/-- Read the items of a JSON array (at least one item): returns the
messages and the input after the closing bracket. -/
def parseItems : Nat → List Char → Option (List Message × List Char)
  | 0, _ => none
  | Nat.succ fuel, s =>
    match parseObjMsg (Nat.succ fuel) s with
    | none => none
    | some (m, r) =>
      match skipWs r with
      | ',' :: r2 => (parseItems fuel r2).map (fun p => (m :: p.1, p.2))
      | ']' :: r2 => some ([m], r2)
      | _ => none

/-- Parse a whole transcript: a JSON array of message objects followed by
nothing but whitespace. -/
def parseTranscript (s : List Char) : Option (List Message) :=
  match skipWs s with
  | '[' :: r =>
    match skipWs r with
    | ']' :: r2 => if skipWs r2 = [] then some [] else none
    | _ =>
      match parseItems (s.length + 1) r with
      | none => none
      | some (ms, rest) => if skipWs rest = [] then some ms else none
  | _ => none

/-! ## Theorems

Helper lemmas first, then one theorem per claim of the specification
audit, each preceded by a doc comment naming the claim. -/

lemma hexVal_hexDigitChar : ∀ n, n < 16 → hexVal (hexDigitChar n) = some n := by decide

lemma hexVal_zero : hexVal '0' = some 0 := by decide

lemma parseStrBody_quote (t : List Char) : parseStrBody ('"' :: t) = some ([], t) := by
  rw [parseStrBody.eq_def]; simp

lemma parseStrBody_cons (c : Char) (t : List Char) (h1 : ¬c = '"') (h2 : ¬c = '\\') :
    parseStrBody (c :: t) = (parseStrBody t).map (fun p => (c :: p.1, p.2)) := by
  rw [parseStrBody.eq_def]; simp [h1, h2]

lemma parseStrBody_escChar (c : Char) (t : List Char) :
    parseStrBody (escCharGo c ++ t) =
      (parseStrBody t).map (fun p => (c :: p.1, p.2)) := by
  by_cases h1 : c = '"'
  · subst h1; rw [escCharGo]; simp only [reduceIte, List.cons_append, List.nil_append]
    rw [parseStrBody.eq_def]; simp
  by_cases h2 : c = '\\'
  · subst h2; rw [escCharGo]; simp only [reduceIte, List.cons_append, List.nil_append]
    rw [parseStrBody.eq_def]; simp
  by_cases h3 : c = '\n'
  · subst h3; rw [escCharGo]; simp only [reduceIte, List.cons_append, List.nil_append]
    rw [parseStrBody.eq_def]; simp
  by_cases h4 : c = '\r'
  · subst h4; rw [escCharGo]; simp only [reduceIte, List.cons_append, List.nil_append]
    rw [parseStrBody.eq_def]; simp
  by_cases h5 : c = '\t'
  · subst h5; rw [escCharGo]; simp only [reduceIte, List.cons_append, List.nil_append]
    rw [parseStrBody.eq_def]; simp
  by_cases h6 : c.toNat < 32
  · rw [escCharGo]
    simp only [h1, h2, h3, h4, h5, h6, if_false, if_true, reduceIte,
      ite_true, ite_false, List.cons_append, List.nil_append]
    rw [parseStrBody.eq_def]
    simp
    rw [hexVal_zero, hexVal_hexDigitChar _ (show c.toNat / 16 < 16 by omega),
      hexVal_hexDigitChar _ (show c.toNat % 16 < 16 by omega)]
    simp
    have hn : c.toNat / 16 * 16 + c.toNat % 16 = c.toNat := by omega
    rw [hn, Char.ofNat_toNat]
  by_cases h7 : c = '<'
  · subst h7; rw [escCharGo]; simp only [reduceIte, List.cons_append, List.nil_append]
    rw [parseStrBody.eq_def]; simp [hexVal]
  by_cases h8 : c = '>'
  · subst h8; rw [escCharGo]; simp only [reduceIte, List.cons_append, List.nil_append]
    rw [parseStrBody.eq_def]; simp [hexVal]
  by_cases h9 : c = '&'
  · subst h9; rw [escCharGo]; simp only [reduceIte, List.cons_append, List.nil_append]
    rw [parseStrBody.eq_def]; simp [hexVal]
  by_cases h10 : c.toNat = 8232
  · rw [escCharGo]
    simp only [h1, h2, h3, h4, h5, h6, h7, h8, h9, h10, if_false, if_true, reduceIte,
      ite_true, ite_false, List.cons_append, List.nil_append]
    rw [parseStrBody.eq_def]
    simp [hexVal]
    rw [← h10, Char.ofNat_toNat]
  by_cases h11 : c.toNat = 8233
  · rw [escCharGo]
    simp only [h1, h2, h3, h4, h5, h6, h7, h8, h9, h10, h11, if_false, if_true, reduceIte,
      ite_true, ite_false, List.cons_append, List.nil_append]
    rw [parseStrBody.eq_def]
    simp [hexVal]
    rw [← h11, Char.ofNat_toNat]
  · rw [escCharGo]
    simp only [h1, h2, h3, h4, h5, h6, h7, h8, h9, h10, h11, if_false, ite_false, reduceIte,
      List.cons_append, List.nil_append]
    exact parseStrBody_cons c t h1 h2

lemma parseStrBody_escList (cs : List Char) (rest : List Char) :
    parseStrBody (escListGo cs ++ '"' :: rest) = some (cs, rest) := by
  induction cs with
  | nil => simp [escListGo, parseStrBody_quote]
  | cons c cs ih =>
    have h : escListGo (c :: cs) = escCharGo c ++ escListGo cs := by
      simp [escListGo]
    rw [h, List.append_assoc, parseStrBody_escChar, ih]
    rfl

lemma serMsg_eq (m : Message) :
    serMsg m = ' ' :: ' ' :: '\x7b' :: '\n' :: ' ' :: ' ' :: ' ' :: ' ' :: '"' :: 'r' ::
      'o' :: 'l' :: 'e' :: '"' :: ':' :: ' ' :: '"' ::
      (escGo m.role ++ ('"' :: ',' :: '\n' :: ' ' :: ' ' :: ' ' :: ' ' :: '"' :: 'c' ::
        'o' :: 'n' :: 't' :: 'e' :: 'n' :: 't' :: '"' :: ':' :: ' ' :: '"' ::
        (escGo m.content ++ ('"' :: '\n' :: ' ' :: ' ' :: '\x7d' :: [])))) := by
  rw [serMsg,
    show strL "  \x7b\n    \"role\": \"" =
      [' ', ' ', '\x7b', '\n', ' ', ' ', ' ', ' ', '"', 'r', 'o', 'l', 'e', '"', ':', ' ', '"']
      from rfl,
    show strL "\",\n    \"content\": \"" =
      ['"', ',', '\n', ' ', ' ', ' ', ' ', '"', 'c', 'o', 'n', 't', 'e', 'n', 't', '"', ':', ' ', '"']
      from rfl,
    show strL "\"\n  \x7d" = ['"', '\n', ' ', ' ', '\x7d'] from rfl]
  simp

lemma parseMembers_ser (f : Nat) (R C : List Char) (T : List Char) :
    parseMembers (f + 2) ('\n' :: ' ' :: ' ' :: ' ' :: ' ' :: '"' :: 'r' :: 'o' :: 'l' ::
      'e' :: '"' :: ':' :: ' ' :: '"' ::
      (escListGo R ++ '"' :: ',' :: '\n' :: ' ' :: ' ' :: ' ' :: ' ' :: '"' :: 'c' ::
        'o' :: 'n' :: 't' :: 'e' :: 'n' :: 't' :: '"' :: ':' :: ' ' :: '"' ::
        (escListGo C ++ '"' :: '\n' :: ' ' :: ' ' :: '\x7d' :: T))) =
      some ([(['r', 'o', 'l', 'e'], R), (['c', 'o', 'n', 't', 'e', 'n', 't'], C)], T) := by
  rw [show f + 2 = Nat.succ (f + 1) from rfl, parseMembers]
  simp [skipWs, parseStrBody_cons, parseStrBody_quote]
  rw [show escListGo R ++ '"' :: ',' :: '\n' :: ' ' :: ' ' :: ' ' :: ' ' :: '"' :: 'c' ::
        'o' :: 'n' :: 't' :: 'e' :: 'n' :: 't' :: '"' :: ':' :: ' ' :: '"' ::
        (escListGo C ++ '"' :: '\n' :: ' ' :: ' ' :: '\x7d' :: T) =
      escListGo R ++ ('"' :: (',' :: '\n' :: ' ' :: ' ' :: ' ' :: ' ' :: '"' :: 'c' ::
        'o' :: 'n' :: 't' :: 'e' :: 'n' :: 't' :: '"' :: ':' :: ' ' :: '"' ::
        (escListGo C ++ '"' :: '\n' :: ' ' :: ' ' :: '\x7d' :: T))) from rfl,
    parseStrBody_escList]
  simp [skipWs, parseStrBody_cons, parseStrBody_quote]
  rw [show f + 1 = Nat.succ f from rfl, parseMembers]
  simp [skipWs, parseStrBody_cons, parseStrBody_quote]
  rw [show escListGo C ++ '"' :: '\n' :: ' ' :: ' ' :: '\x7d' :: T =
      escListGo C ++ ('"' :: ('\n' :: ' ' :: ' ' :: '\x7d' :: T)) from rfl,
    parseStrBody_escList]
  simp [skipWs]

lemma parseObjMsg_ser (f : Nat) (m : Message) (T : List Char) :
    parseObjMsg (f + 2) ('\n' :: (serMsg m ++ T)) = some (m, T) := by
  rw [serMsg_eq]
  simp only [List.cons_append, List.nil_append, List.append_assoc]
  rw [parseObjMsg]
  simp [skipWs]
  rw [show escGo m.role = escListGo m.role.data from rfl,
    show escGo m.content = escListGo m.content.data from rfl]
  rw [parseMembers_ser]
  simp [strL]


lemma parseItems_ser (msgs : List Message) (k : Nat) (rest : List Char) (hne : msgs ≠ []) :
    parseItems (msgs.length + k + 1) ('\n' :: (serItems msgs ++ '\n' :: ']' :: rest)) =
      some (msgs, rest) := by
  induction msgs generalizing rest with
  | nil => exact absurd rfl hne
  | cons m ms ih =>
    cases ms with
    | nil =>
      rw [show ([m] : List Message).length + k + 1 = Nat.succ (k + 1) from by
          simp only [List.length_cons, List.length_nil]; omega,
        parseItems,
        show serItems [m] = serMsg m from rfl,
        show Nat.succ (k + 1) = k + 2 from rfl,
        parseObjMsg_ser]
      simp [skipWs]
    | cons m2 ms2 =>
      rw [show (m :: m2 :: ms2 : List Message).length + k + 1 =
          Nat.succ (ms2.length + k + 2) from by simp only [List.length_cons]; omega,
        parseItems, serItems]
      simp only [List.append_assoc]
      rw [show Nat.succ (ms2.length + k + 2) = (ms2.length + k + 1) + 2 from rfl,
        parseObjMsg_ser]
      have ih2 := ih rest (by simp)
      simp only [List.length_cons] at ih2
      rw [show strL ",\n" ++ (serItems (m2 :: ms2) ++ '\n' :: ']' :: rest) =
          ',' :: '\n' :: (serItems (m2 :: ms2) ++ '\n' :: ']' :: rest) from rfl]
      simp [skipWs]
      rw [show ms2.length + k + 2 = ms2.length + 1 + k + 1 from by omega, ih2]

lemma serItems_length (msgs : List Message) : msgs.length ≤ (serItems msgs).length := by
  induction msgs with
  | nil => simp [serItems]
  | cons m ms ih =>
    cases ms with
    | nil => rw [serItems, serMsg_eq]; simp
    | cons m2 ms2 =>
      rw [serItems]
      simp only [List.length_append, List.length_cons]
      rw [serMsg_eq]
      simp only [List.length_cons, List.length_append]
      simp only [List.length_cons] at ih
      omega

lemma serItems_shape (m : Message) (ms : List Message) :
    ∃ X, serItems (m :: ms) = ' ' :: ' ' :: '\x7b' :: X := by
  cases ms with
  | nil => exact ⟨_, by rw [serItems, serMsg_eq]⟩
  | cons m2 ms2 => exact ⟨_, by rw [serItems, serMsg_eq]; rfl⟩

/-- Claim C7: for every Conversation (every finite ordered sequence of
role/content pairs), serializing it to the transcript format (the
indented JSON array of role/content objects written by
`saveConversationLog`) and parsing that output back yields an ordered
sequence equal to the original. -/
theorem claim7_transcript_roundtrip (conv : List Message) :
    parseTranscript (serializeConversation conv) = some conv := by
  cases conv with
  | nil => decide
  | cons m ms =>
    rw [show serializeConversation (m :: ms) =
        '[' :: '\n' :: (serItems (m :: ms) ++ '\n' :: ']' :: []) from rfl]
    rw [parseTranscript]
    obtain ⟨X, hX⟩ := serItems_shape m ms
    have hskip2 : skipWs (serItems (m :: ms) ++ ['\n', ']']) = '\x7b' :: (X ++ ['\n', ']']) := by
      rw [hX]; simp [skipWs]
    simp only [List.length_cons, List.length_append]
    simp [skipWs, hskip2]
    have hlen := serItems_length (m :: ms)
    simp only [List.length_cons] at hlen
    rw [show (serItems (m :: ms)).length + 2 + 1 + 1 + 1 =
        (m :: ms : List Message).length + ((serItems (m :: ms)).length + 4 - (ms.length + 1)) + 1
        from by simp only [List.length_cons]; omega,
      parseItems_ser _ _ _ (by simp)]
    simp [skipWs]

/-- Claim C2: after loading, if the loaded Conversation is empty or its
last Turn's role is not `user`, the session starts at the interactive
prompt with no remote call before it; if the last Turn's role is `user`,
the session starts with the remote call, carrying the loaded
Conversation, with no interactive prompt before it. -/
theorem claim2_initial_action (msgs : List Message) :
    (initState msgs).messages = msgs ∧
    ((msgs = [] ∨ (msgs.getLast?).map Message.role ≠ some USER) →
      (initState msgs).mode = Mode.AwaitingUserTurn) ∧
    ((msgs.getLast?).map Message.role = some USER →
      (initState msgs).mode = Mode.AwaitingRemoteReply) := by
  refine ⟨?_, ?_, ?_⟩
  · unfold initState; split <;> rfl
  · intro h
    unfold initState startsWithPrompt
    cases hl : msgs.getLast? with
    | none => simp
    | some m =>
      have hne : msgs ≠ [] := by
        intro he; rw [he] at hl; simp at hl
      rcases h with h | h
      · exact absurd h hne
      · rw [hl] at h
        simp at h
        simp [h]
  · intro h
    unfold initState startsWithPrompt
    cases hl : msgs.getLast? with
    | none => rw [hl] at h; simp at h
    | some m =>
      rw [hl] at h
      simp at h
      simp [h]

/-- Witness for C2 at concrete conversations. -/
theorem claim2_initial_action_witness :
    (initState [Message.mk "user" "ping"]).mode = Mode.AwaitingRemoteReply ∧
    (initState [Message.mk "system" "s"]).mode = Mode.AwaitingUserTurn ∧
    (initState []).mode = Mode.AwaitingUserTurn := by
  refine ⟨(claim2_initial_action [Message.mk "user" "ping"]).2.2 (by decide),
    (claim2_initial_action [Message.mk "system" "s"]).2.1 (Or.inr (by decide)),
    (claim2_initial_action []).2.1 (Or.inl rfl)⟩

/-- Claim C3: at every prompt, a line processing to `/quit!` terminates
the session without writing a transcript, and a line processing to
`/quit` terminates it writing exactly the current Conversation serialized
as the indented JSON transcript; neither quit line is appended to the
Conversation (the resulting state keeps the messages unchanged). -/
theorem claim3_quit_commands (st : SessionState) (raw : String)
    (hmode : st.mode = Mode.AwaitingUserTurn) :
    (processInput raw = "/quit!" →
      step st (Event.input (InputEvent.line raw)) =
        { st with mode := Mode.Terminated false, firstPrompt := false } ∧
      savedTranscript (step st (Event.input (InputEvent.line raw))) = none) ∧
    (processInput raw = "/quit" →
      step st (Event.input (InputEvent.line raw)) =
        { st with mode := Mode.Terminated true, firstPrompt := false } ∧
      savedTranscript (step st (Event.input (InputEvent.line raw))) =
        some (serializeConversation st.messages)) := by
  constructor
  · intro h
    have hs : step st (Event.input (InputEvent.line raw)) =
        { st with mode := Mode.Terminated false, firstPrompt := false } := by
      unfold step
      rw [hmode]
      unfold stepInput
      simp [h]
    exact ⟨hs, by rw [hs]; rfl⟩
  · intro h
    have hs : step st (Event.input (InputEvent.line raw)) =
        { st with mode := Mode.Terminated true, firstPrompt := false } := by
      unfold step
      rw [hmode]
      unfold stepInput
      simp [h]
    exact ⟨hs, by rw [hs]; rfl⟩

/-- Witness for C3: `/quit` saves the serialized conversation, `/quit!`
saves nothing, at concrete prompt states. -/
theorem claim3_quit_commands_witness :
    savedTranscript (step ⟨Mode.AwaitingUserTurn, [Message.mk "user" "hello"], [], false⟩
        (Event.input (InputEvent.line "/quit\n"))) =
      some (serializeConversation [Message.mk "user" "hello"]) ∧
    savedTranscript (step ⟨Mode.AwaitingUserTurn, [Message.mk "user" "hello"], [], true⟩
        (Event.input (InputEvent.line "/quit!\n"))) = none :=
  ⟨((claim3_quit_commands ⟨Mode.AwaitingUserTurn, [Message.mk "user" "hello"], [], false⟩
      "/quit\n" rfl).2 (by decide)).2,
   ((claim3_quit_commands ⟨Mode.AwaitingUserTurn, [Message.mk "user" "hello"], [], true⟩
      "/quit!\n" rfl).1 (by decide)).2⟩

/-- Claim C6: every remote-call failure (transport error, non-200 status,
unreadable or undecodable body) leaves the session state exactly as it
was: no Turn appended, no Turn lost, still awaiting the same remote call
with the identical Conversation, with no interactive prompt in between. -/
theorem claim6_remote_failure_retry (st : SessionState) (o : RemoteOutcome)
    (hmode : st.mode = Mode.AwaitingRemoteReply)
    (hfail : ∀ cf, o ≠ RemoteOutcome.decoded cf) :
    step st (Event.remote o) = st := by
  unfold step
  rw [hmode]
  cases o with
  | transportError =>
    unfold stepRemote
    cases st; simp_all
  | httpError s b => unfold stepRemote; cases st; simp_all
  | unreadableBody => unfold stepRemote; cases st; simp_all
  | undecodable b => unfold stepRemote; cases st; simp_all
  | decoded cf => exact absurd rfl (hfail cf)

/-- Witness for C6 at a concrete state, for a transport failure and an
HTTP 500 failure. -/
theorem claim6_remote_failure_retry_witness :
    step ⟨Mode.AwaitingRemoteReply, [Message.mk "user" "hi"], [], false⟩
        (Event.remote RemoteOutcome.transportError) =
      ⟨Mode.AwaitingRemoteReply, [Message.mk "user" "hi"], [], false⟩ ∧
    step ⟨Mode.AwaitingRemoteReply, [Message.mk "user" "hi"], [], false⟩
        (Event.remote (RemoteOutcome.httpError 500 "oops")) =
      ⟨Mode.AwaitingRemoteReply, [Message.mk "user" "hi"], [], false⟩ :=
  ⟨claim6_remote_failure_retry _ _ rfl (fun cf h => by cases h),
   claim6_remote_failure_retry _ _ rfl (fun cf h => by cases h)⟩

/-- Claim C9: a read failure at an in-loop prompt (after an assistant
reply) neither terminates nor re-prompts: the session goes straight back
to the remote call with the unchanged Conversation, so a second assistant
Turn can follow with no user Turn in between (shown on a concrete trace);
the same failure at the very first, pre-loop prompt is fatal. -/
theorem claim9_read_failure (st : SessionState) (hmode : st.mode = Mode.AwaitingUserTurn) :
    (st.firstPrompt = false →
      step st (Event.input InputEvent.readFailure) =
        { st with mode := Mode.AwaitingRemoteReply }) ∧
    (st.firstPrompt = true →
      step st (Event.input InputEvent.readFailure) = { st with mode := Mode.FatalExit }) ∧
    (let a1 : Message := Message.mk ASSISTANT "first"
     let a2 : Message := Message.mk ASSISTANT "second"
     let t1 := step (initState [Message.mk USER "q"])
       (Event.remote (RemoteOutcome.decoded (some [ResponseChoice.mk a1])))
     let t2 := step t1 (Event.input InputEvent.readFailure)
     let t3 := step t2 (Event.remote (RemoteOutcome.decoded (some [ResponseChoice.mk a2])))
     t2.messages = t1.messages ∧
       t3.messages = [Message.mk USER "q", a1, a2]) := by
  refine ⟨?_, ?_, by decide⟩
  · intro h
    unfold step
    rw [hmode]
    unfold stepInput
    rw [h]
    simp
  · intro h
    unfold step
    rw [hmode]
    unfold stepInput
    rw [h]
    simp

/-- Witness for C9 at concrete prompt states, in-loop and pre-loop. -/
theorem claim9_read_failure_witness :
    step ⟨Mode.AwaitingUserTurn, [Message.mk "user" "q"], [], false⟩
        (Event.input InputEvent.readFailure) =
      ⟨Mode.AwaitingRemoteReply, [Message.mk "user" "q"], [], false⟩ ∧
    step ⟨Mode.AwaitingUserTurn, [], [], true⟩ (Event.input InputEvent.readFailure) =
      ⟨Mode.FatalExit, [], [], true⟩ :=
  ⟨(claim9_read_failure ⟨Mode.AwaitingUserTurn, [Message.mk "user" "q"], [], false⟩ rfl).1 rfl,
   (claim9_read_failure ⟨Mode.AwaitingUserTurn, [], [], true⟩ rfl).2.1 rfl⟩

/-- Claim C10: the program never validates the role field: a record whose
role is outside the three constants is loaded verbatim (its file
reference ignored, never fatal), is carried unchanged in the request
payload, and is counted in none of the three per-role banner counters. -/
theorem claim10_unvalidated_roles (fs : String → Option String) (dir : String)
    (m0 : MessageIn) (rest : List MessageIn) (msgs : List Message)
    (h1 : m0.role ≠ SYSTEM) (h2 : m0.role ≠ USER) (h3 : m0.role ≠ ASSISTANT) :
    loadConversation fs dir (m0 :: rest) =
      (loadConversation fs dir rest).map
        (fun ms => Message.mk m0.role m0.content :: ms) ∧
    (∀ model temperature,
      (buildPayload model temperature
          (msgs ++ [Message.mk m0.role m0.content])).messages =
        msgs ++ [Message.mk m0.role m0.content]) ∧
    countRoles (msgs ++ [Message.mk m0.role m0.content]) = countRoles msgs := by
  refine ⟨?_, fun _ _ => rfl, ?_⟩
  · rw [loadConversation]
    simp [h1]
  · unfold countRoles
    rw [List.foldl_append]
    simp [h1, h2, h3]

/-- Witness for C10 with the out-of-set role `tool`. -/
theorem claim10_unvalidated_roles_witness :
    loadConversation (fun _ => none) "prompts" [MessageIn.mk "tool" "x" "f.md"] =
      (loadConversation (fun _ => none) "prompts" []).map
        (fun ms => Message.mk "tool" "x" :: ms) ∧
    countRoles ([Message.mk "user" "u"] ++ [Message.mk "tool" "x"]) =
      countRoles [Message.mk "user" "u"] := by
  have h := claim10_unvalidated_roles (fun _ => none) "prompts"
    (MessageIn.mk "tool" "x" "f.md") [] [Message.mk "user" "u"]
    (by decide) (by decide) (by decide)
  exact ⟨h.1, h.2.2⟩

/-- Claim C1 (code defect, shown on a concrete trace): after a successful
call whose body carried a non-empty choices list, a later HTTP 200 call
whose decodable body has zero choices because the `choices` key is absent
(such as the body consisting of an empty JSON object) does NOT leave the
Conversation unchanged: the decoder leaves the previous call's choices in
the reused `responseBody` (main.go line 277), so the previous assistant
message is appended a second time.  By contrast, at the very same state a
body carrying an explicitly empty choices list leaves the Conversation
unchanged, as the claim demands. -/
theorem claim1_stale_choices_append :
    (let a1 : Message := Message.mk ASSISTANT "first reply"
     let t1 := step (initState [Message.mk USER "ping"])
       (Event.remote (RemoteOutcome.decoded (some [ResponseChoice.mk a1])))
     let t2 := step t1 (Event.input (InputEvent.line "again\n"))
     let t3 := step t2 (Event.remote (RemoteOutcome.decoded none))
     t3.messages = [Message.mk USER "ping", a1, Message.mk USER "again", a1] ∧
       t3.messages.length = t2.messages.length + 1 ∧
       t3.mode = Mode.AwaitingUserTurn) ∧
    (let a1 : Message := Message.mk ASSISTANT "first reply"
     let t1 := step (initState [Message.mk USER "ping"])
       (Event.remote (RemoteOutcome.decoded (some [ResponseChoice.mk a1])))
     let t2 := step t1 (Event.input (InputEvent.line "again\n"))
     let t3 := step t2 (Event.remote (RemoteOutcome.decoded (some [])))
     t3.messages = t2.messages ∧ t3.mode = Mode.AwaitingUserTurn) := by
  exact ⟨⟨by decide, by decide, by decide⟩, by decide, by decide⟩

/-- Claim C5 (code defect): `readUserInput` trims `"\n"` before `"\r\n"`
(main.go lines 107-108), so a CRLF-terminated quit line keeps its
carriage return, is recognized as neither quit command and is appended
verbatim as a user Turn; LF-terminated quit lines are recognized. -/
theorem claim5_crlf_not_quit :
    processInput "/quit\r\n" = "/quit\r" ∧
    ¬processInput "/quit\r\n" = "/quit" ∧
    ¬processInput "/quit\r\n" = "/quit!" ∧
    (step ⟨Mode.AwaitingUserTurn, [], [], true⟩
        (Event.input (InputEvent.line "/quit\r\n"))).messages =
      [Message.mk USER "/quit\r"] ∧
    (step ⟨Mode.AwaitingUserTurn, [], [], true⟩
        (Event.input (InputEvent.line "/quit\r\n"))).mode = Mode.AwaitingRemoteReply ∧
    processInput "/quit\n" = "/quit" ∧
    processInput "/quit!\n" = "/quit!" := by
  refine ⟨by decide, by decide, by decide, by decide, by decide, by decide, by decide⟩

lemma setField_isSome (m : MessageIn) (key : String) (v : JsonVal) :
    (setField m key v).isSome = fieldAccepted (key, v) := by
  cases v <;> unfold setField strOrNullField fieldAccepted <;>
    by_cases h1 : asciiLower key = "role" <;>
    by_cases h2 : asciiLower key = "content" <;>
    by_cases h3 : asciiLower key = "file" <;>
    simp [h1, h2, h3]

lemma unmarshalFields_isSome (fields : List (String × JsonVal)) (m : MessageIn) :
    (unmarshalFields m fields).isSome = fields.all fieldAccepted := by
  induction fields generalizing m with
  | nil => simp [unmarshalFields]
  | cons kv rest ih =>
    rw [unmarshalFields]
    cases hsf : setField m kv.1 kv.2 with
    | none =>
      have : fieldAccepted (kv.1, kv.2) = false := by
        rw [← setField_isSome m kv.1 kv.2, hsf]; rfl
      simp [List.all_cons, this]
    | some m2 =>
      have : fieldAccepted (kv.1, kv.2) = true := by
        rw [← setField_isSome m kv.1 kv.2, hsf]; rfl
      simp [List.all_cons, this, ih m2]

lemma unmarshalMessageIn_isSome (v : JsonVal) :
    (unmarshalMessageIn v).isSome = acceptedRecordShape v := by
  cases v with
  | null => rfl
  | obj fields => exact unmarshalFields_isSome fields _
  | bool b => rfl
  | num s => rfl
  | str s => rfl
  | arr es => rfl

lemma unmarshalElems_isSome (es : List JsonVal) :
    (unmarshalElems es).isSome = es.all acceptedRecordShape := by
  induction es with
  | nil => simp [unmarshalElems]
  | cons v rest ih =>
    rw [unmarshalElems]
    cases hv : unmarshalMessageIn v with
    | none =>
      have : acceptedRecordShape v = false := by
        rw [← unmarshalMessageIn_isSome, hv]; rfl
      simp [List.all_cons, this]
    | some m =>
      have : acceptedRecordShape v = true := by
        rw [← unmarshalMessageIn_isSome, hv]; rfl
      simp [List.all_cons, this, ← ih]

/-- Counterexample to claim C8 as stated: an input file whose contents
are the JSON value `null` is not an array, yet the startup decode
succeeds (Go's Unmarshal sets the slice to nil on `null`) and yields an
empty record list instead of the immediate fatal error the claim
demands. -/
theorem claim8_null_accepted :
    decodeInputFile (some JsonVal.null) = some [] ∧
    ¬decodeInputFile (some JsonVal.null) = none :=
  ⟨rfl, by simp [decodeInputFile, unmarshalMessagesIn]⟩

/-- Claim C8 as amended: the startup decode succeeds exactly on
syntactically valid JSON that is either `null` (accepted as an empty
conversation) or an array each of whose elements is `null` or an object
whose members with keys ASCII-folding to `role`, `content` or `file`
carry string or null values; every other input — unparsable text, any
other non-array value (number, string, boolean, object), or an array
with any other element shape — is an immediate fatal startup error. -/
theorem claim8_amended_acceptance (parsed : Option JsonVal) :
    (decodeInputFile parsed).isSome = true ↔
      ∃ v, parsed = some v ∧
        (v = JsonVal.null ∨
          ∃ es, v = JsonVal.arr es ∧ ∀ e ∈ es, acceptedRecordShape e = true) := by
  cases parsed with
  | none => simp [decodeInputFile]
  | some v =>
    cases v with
    | null => simp [decodeInputFile, unmarshalMessagesIn]
    | bool b => simp [decodeInputFile, unmarshalMessagesIn]
    | num s => simp [decodeInputFile, unmarshalMessagesIn]
    | str s => simp [decodeInputFile, unmarshalMessagesIn]
    | obj fields => simp [decodeInputFile, unmarshalMessagesIn]
    | arr es =>
      simp only [decodeInputFile, unmarshalMessagesIn, Option.some.injEq]
      rw [unmarshalElems_isSome]
      simp [List.all_eq_true]

/-- Claim C4: for every well-formed input array, the loader produces a
Conversation of the same length and order; the i-th Turn carries the i-th
record's role and inline content, except that a system record with a
file reference gets the contents of `promptsDir/file`; and the load is
fatal exactly when some system record's referenced file cannot be read. -/
theorem claim4_loader (fs : String → Option String) (dir : String)
    (input : List MessageIn) :
    (∀ conv, loadConversation fs dir input = some conv →
      conv.length = input.length ∧
      ∀ i (hi : i < input.length) (hcv : i < conv.length),
        (conv.get ⟨i, hcv⟩).role = (input.get ⟨i, hi⟩).role ∧
        (¬((input.get ⟨i, hi⟩).role = SYSTEM ∧ (input.get ⟨i, hi⟩).file ≠ "") →
          (conv.get ⟨i, hcv⟩).content = (input.get ⟨i, hi⟩).content) ∧
        (((input.get ⟨i, hi⟩).role = SYSTEM ∧ (input.get ⟨i, hi⟩).file ≠ "") →
          fs (dir ++ "/" ++ (input.get ⟨i, hi⟩).file) =
            some ((conv.get ⟨i, hcv⟩).content))) ∧
    (loadConversation fs dir input = none ↔
      ∃ m ∈ input, m.role = SYSTEM ∧ m.file ≠ "" ∧ fs (dir ++ "/" ++ m.file) = none) := by
  induction input with
  | nil =>
    constructor
    · intro conv h
      simp only [loadConversation, Option.some.injEq] at h
      subst h
      exact ⟨rfl, fun i hi => absurd hi (by simp)⟩
    · simp [loadConversation]
  | cons m rest ih =>
    by_cases hc : m.role = SYSTEM ∧ m.file ≠ ""
    · cases hfs : fs (dir ++ "/" ++ m.file) with
      | none =>
        have hl : loadConversation fs dir (m :: rest) = none := by
          rw [loadConversation]
          simp [hc, hfs]
        constructor
        · intro conv h
          rw [hl] at h
          cases h
        · rw [hl]
          constructor
          · intro _
            exact ⟨m, by simp, hc.1, hc.2, hfs⟩
          · intro _
            rfl
      | some data =>
        have hl : loadConversation fs dir (m :: rest) =
            (loadConversation fs dir rest).map
              (fun ms => Message.mk m.role data :: ms) := by
          rw [loadConversation]
          simp [hc, hfs]
        constructor
        · intro conv h
          rw [hl] at h
          obtain ⟨convR, hR, rfl⟩ := Option.map_eq_some'.mp h
          obtain ⟨ihlen, ihget⟩ := ih.1 convR hR
          refine ⟨by simp [ihlen], ?_⟩
          intro i hi hcv
          cases i with
          | zero =>
            refine ⟨rfl, ?_, ?_⟩
            · intro hnc
              exact absurd (by simpa using hc) hnc
            · intro _
              simpa using hfs
          | succ n =>
            have hi2 : n < rest.length := by simpa using hi
            have hc2 : n < convR.length := by simpa using hcv
            simpa using ihget n hi2 hc2
        · rw [hl]
          simp only [Option.map_eq_none']
          rw [ih.2]
          constructor
          · rintro ⟨m2, hm2, h⟩
            exact ⟨m2, List.mem_cons_of_mem _ hm2, h⟩
          · rintro ⟨m2, hm2, hr, hf, hn⟩
            rcases List.mem_cons.mp hm2 with rfl | hm2
            · rw [hfs] at hn
              cases hn
            · exact ⟨m2, hm2, hr, hf, hn⟩
    · have hl : loadConversation fs dir (m :: rest) =
          (loadConversation fs dir rest).map
            (fun ms => Message.mk m.role m.content :: ms) := by
        rw [loadConversation]
        simp [hc]
      constructor
      · intro conv h
        rw [hl] at h
        obtain ⟨convR, hR, rfl⟩ := Option.map_eq_some'.mp h
        obtain ⟨ihlen, ihget⟩ := ih.1 convR hR
        refine ⟨by simp [ihlen], ?_⟩
        intro i hi hcv
        cases i with
        | zero =>
          refine ⟨rfl, fun _ => rfl, ?_⟩
          intro hcond
          exact absurd (by simpa using hcond) hc
        | succ n =>
          have hi2 : n < rest.length := by simpa using hi
          have hc2 : n < convR.length := by simpa using hcv
          simpa using ihget n hi2 hc2
      · rw [hl]
        simp only [Option.map_eq_none']
        rw [ih.2]
        constructor
        · rintro ⟨m2, hm2, h⟩
          exact ⟨m2, List.mem_cons_of_mem _ hm2, h⟩
        · rintro ⟨m2, hm2, hr, hf, hn⟩
          rcases List.mem_cons.mp hm2 with rfl | hm2
          · exact absurd ⟨hr, hf⟩ hc
          · exact ⟨m2, hm2, hr, hf, hn⟩

/-- Witness for C4: a system record whose prompt file resolves plus an
inline user record, evaluated concretely. -/
theorem claim4_loader_witness :
    loadConversation (fun p => if p = "prompts/sys.md" then some "SYS" else none)
        "prompts" [MessageIn.mk "system" "" "sys.md", MessageIn.mk "user" "hi" ""] =
      some [Message.mk "system" "SYS", Message.mk "user" "hi"] ∧
    ([Message.mk "system" "SYS", Message.mk "user" "hi"] : List Message).length =
      ([MessageIn.mk "system" "" "sys.md",
        MessageIn.mk "user" "hi" ""] : List MessageIn).length := by
  have h := (claim4_loader (fun p => if p = "prompts/sys.md" then some "SYS" else none)
    "prompts" [MessageIn.mk "system" "" "sys.md", MessageIn.mk "user" "hi" ""]).1
    [Message.mk "system" "SYS", Message.mk "user" "hi"] (by decide)
  exact ⟨by decide, h.1⟩
